import Mathlib

/-!
Verification of the functional core of the `bdestrempes-dev` blog repository:
the reading-time estimator (`src/lib/utils.ts`), the table-of-contents tree
builder (`TableOfContents.astro`), the tag-color lookup (`src/lib/tags.ts`),
the RSS route handler (`src/pages/rss.xml.ts`) together with the paginated
articles index, and the Excalidraw SVG post-processor
(`src/components/custom/Excalidraw.astro`).

Each TypeScript function is shallowly embedded as an executable Lean
definition over `List Char` / `String` / explicit state records, mirroring
the JavaScript runtime semantics (including the `try`/`catch` structure and
exceptions, modelled with `Except`).
-/

namespace Blog

/-! ## JavaScript value model for `readingTime`

`readingTime(html: string)` is called in the repository with `null` and
`undefined` as well (`readingTime(null as any)` in its test-suite), so the
input is modelled as a sum of `null`, `undefined` and a proper string. -/

inductive JsStr where
  | jsNull
  | jsUndefined
  | str (s : String)
deriving DecidableEq

/-- `html || ''` in JavaScript: `null`, `undefined` and the empty string are
falsy, every other string is returned unchanged (for the empty string the
result is `''` either way). -/
def jsOrEmpty : JsStr → String
  | JsStr.jsNull => ""
  | JsStr.jsUndefined => ""
  | JsStr.str s => s

/-- A JavaScript runtime exception (only the kind matters here). -/
inductive JsError where
  | typeError
deriving DecidableEq

/-- The whitespace class of the JavaScript regexp `\s` restricted to the
ASCII range: space, tab, line feed, vertical tab, form feed, carriage
return. -/
def jsIsSpace (c : Char) : Bool :=
  c = ' ' || c = '\t' || c = '\n' || c = '\x0b' || c = '\x0c' || c = '\r'

/-- `.replace(/<[^>]+>/g, '')` as a one-pass machine (single left-to-right
scan, which is exactly how the global regexp replace proceeds): outside a
candidate match (`none`) a `'<'` opens a candidate; inside a candidate
(`some buf`, holding the characters seen since the `'<'`, reversed) a `'>'`
closes it — deleting the whole `<...>` segment when at least one character
was buffered (`[^>]+` needs one or more), while the unmatched `"<>"` is
emitted verbatim — and every other character is buffered. A candidate still
open at the end of the input never finds a `'>'`, so nothing in it can
match and it is emitted verbatim. -/
def stripTagsA : List Char → Option (List Char) → List Char
  | [], none => []
  | [], some buf => '<' :: buf.reverse
  | c :: cs, none =>
    if c = '<' then stripTagsA cs (some [])
    else c :: stripTagsA cs none
  | c :: cs, some buf =>
    if c = '>' then
      match buf with
      | [] => '<' :: '>' :: stripTagsA cs none
      | _ :: _ => stripTagsA cs none
    else stripTagsA cs (some (c :: buf))

def stripTags (cs : List Char) : List Char := stripTagsA cs none

/-- `String.prototype.trim()`: remove leading and trailing whitespace. -/
def jsTrim (cs : List Char) : List Char :=
  ((cs.dropWhile jsIsSpace).reverse.dropWhile jsIsSpace).reverse

/-- `.split(/\s+/)`: split on maximal whitespace runs, accumulating the
current piece in `acc` (reversed); `afterSpace` records whether the
previous character belonged to a whitespace run, so consecutive whitespace
characters extend the separator instead of emitting further pieces (the
`+` of the regexp). When `afterSpace` is true, `acc` is always empty. As in
JavaScript, leading input whitespace produces a leading empty piece,
trailing input whitespace a trailing empty piece, and the empty input
yields `[[]]`. -/
def jsSplitWsA : List Char → List Char → Bool → List (List Char)
  | [], acc, _ => [acc.reverse]
  | c :: cs, acc, afterSpace =>
    if jsIsSpace c then
      if afterSpace then jsSplitWsA cs [] true
      else acc.reverse :: jsSplitWsA cs [] true
    else jsSplitWsA cs (c :: acc) false

def jsSplitWs (cs : List Char) : List (List Char) := jsSplitWsA cs [] false

/-- The `words.reduce(...)` step of `readingTime`. In the source, a word of
more than 5 characters evaluates `word.slice(-1, 5).reverse().length`:
`String.prototype.slice(-1, 5)` on such a word is the empty string (start
index `length - 1 ≥ 5 ≥` end index `5`), and strings have no `reverse`
method, so the expression throws a `TypeError` at runtime. The throw is
modelled by `Except.error`; a word of at most 5 characters adds 1. -/
def countWordsE : List (List Char) → Nat → Except JsError Nat
  | [], count => Except.ok count
  | w :: ws, count =>
    if w.length > 5 then Except.error JsError.typeError
    else countWordsE ws (count + 1)

/-- The body of the `try` block of `readingTime`: strip tags, trim,
split into words, drop empty pieces (`.filter(Boolean)`), run the word
count (which can throw), then format
`Math.max(1, Math.ceil(wordCount / 200))` minutes. -/
def readingTimeBody (html : JsStr) : Except JsError String :=
  let textOnly := jsTrim (stripTags (jsOrEmpty html).data)
  let words := (jsSplitWs textOnly).filter (fun w => !w.isEmpty)
  match countWordsE words 0 with
  | Except.error e => Except.error e
  | Except.ok wordCount =>
      Except.ok (toString (max 1 ((wordCount + 199) / 200)) ++ " min read")

/-- `readingTime` from `src/lib/utils.ts`: the `try` body, with any thrown
exception caught and replaced by the fixed fallback `"10 min read"` (the
`console.error` call in the `catch` branch has no value-level effect). -/
def readingTime (html : JsStr) : String :=
  match readingTimeBody html with
  | Except.ok s => s
  | Except.error _ => "10 min read"

/-- `String.prototype.repeat`: `n` concatenated copies of `s`. -/
def jsRepeat (s : String) : Nat → String
  | 0 => ""
  | n + 1 => jsRepeat s n ++ s

/-! ## Claims about `readingTime` -/

/-- C1: the claim says `readingTime` performs plain word counting
(`max(1, ceil(w/200))` minutes for `w` words, no per-word-length
adjustment). The code does not: on any input containing a word of more
than 5 characters the per-word-length branch evaluates
`word.slice(-1, 5).reverse()`, which throws (strings have no `reverse`
method), and the `catch` turns the whole computation into `"10 min read"`.
This theorem evaluates the code on the input of the repository's own test
`should handle longer words correctly` (9 words, so the claim and the test
expect `"1 min read"`): the code yields `"10 min read"` instead. -/
theorem readingTime_long_word_bug :
    readingTime (JsStr.str
      "<p>This text includes extraordinarily long words to test calculation.</p>")
      = "10 min read" ∧
    ("10 min read" : String) ≠ "1 min read" := by
  exact ⟨by decide, by decide⟩

/-- C2: `readingTime` applied to `null`, to `undefined`, and to the empty
string returns exactly `"1 min read"` in each case (and, being a total
function, does not throw). -/
theorem readingTime_null_undefined_empty :
    readingTime JsStr.jsNull = "1 min read" ∧
    readingTime JsStr.jsUndefined = "1 min read" ∧
    readingTime (JsStr.str "") = "1 min read" := by
  exact ⟨by decide, by decide, by decide⟩

set_option maxRecDepth 8000 in
/-- C6: on the input `"<p>" + "word ".repeat(400) + "</p>"` — 400 words,
each of length 4 after tag stripping, so the throwing long-word branch is
never taken — `readingTime` returns exactly `"2 min read"`. -/
theorem readingTime_400_words :
    readingTime (JsStr.str ("<p>" ++ jsRepeat "word " 400 ++ "</p>")) = "2 min read" :=
  rfl

/-- C8: `readingTime` never propagates an exception: for every input, the
`try` body either succeeds — and its value is returned — or throws, in
which case the fixed fallback string `"10 min read"` is returned instead. -/
theorem readingTime_catches_all (js : JsStr) :
    (∃ s, readingTimeBody js = Except.ok s ∧ readingTime js = s) ∨
    (∃ e, readingTimeBody js = Except.error e ∧ readingTime js = "10 min read") := by
  cases h : readingTimeBody js with
  | ok s => exact Or.inl ⟨s, rfl, by simp [readingTime, h]⟩
  | error e => exact Or.inr ⟨e, rfl, by simp [readingTime, h]⟩

/-! ## `src/lib/tags.ts`: `tagColors` and `getTagColor` -/

/-- The `tagColors` object literal, as an association list in source
order. -/
def tagColors : List (String × String) := [
  ("architecture", "bg-sky-100 dark:bg-sky-900/30 text-sky-900 dark:text-sky-100"),
  ("best-practices", "bg-violet-100 dark:bg-violet-900/30 text-violet-900 dark:text-violet-100"),
  ("devops", "bg-emerald-100 dark:bg-emerald-900/30 text-emerald-900 dark:text-emerald-100"),
  ("feature-flags", "bg-amber-100 dark:bg-amber-900/30 text-amber-900 dark:text-amber-100"),
  ("typescript", "bg-blue-100 dark:bg-blue-900/30 text-blue-900 dark:text-blue-100"),
  ("react", "bg-cyan-100 dark:bg-cyan-900/30 text-cyan-900 dark:text-cyan-100"),
  ("testing", "bg-rose-100 dark:bg-rose-900/30 text-rose-900 dark:text-rose-100"),
  ("performance", "bg-lime-100 dark:bg-lime-900/30 text-lime-900 dark:text-lime-100"),
  ("frontend", "bg-pink-100 dark:bg-pink-900/30 text-pink-900 dark:text-pink-100"),
  ("backend", "bg-indigo-100 dark:bg-indigo-900/30 text-indigo-900 dark:text-indigo-100"),
  ("fullstack", "bg-purple-100 dark:bg-purple-900/30 text-purple-900 dark:text-purple-100"),
  ("mobile", "bg-orange-100 dark:bg-orange-900/30 text-orange-900 dark:text-orange-100"),
  ("git", "bg-red-100 dark:bg-red-900/30 text-red-900 dark:text-red-100"),
  ("ai", "bg-fuchsia-100 dark:bg-fuchsia-900/30 text-fuchsia-900 dark:text-fuchsia-100"),
  ("cursor", "bg-teal-100 dark:bg-teal-900/30 text-teal-900 dark:text-teal-100"),
  ("terminal", "bg-zinc-100 dark:bg-zinc-900/30 text-zinc-900 dark:text-zinc-100"),
  ("obsidian", "bg-purple-100 dark:bg-purple-900/30 text-purple-900 dark:text-purple-100"),
  ("vscode", "bg-blue-100 dark:bg-blue-900/30 text-blue-900 dark:text-blue-100"),
  ("docker", "bg-sky-100 dark:bg-sky-900/30 text-sky-900 dark:text-sky-100"),
  ("kubernetes", "bg-blue-100 dark:bg-blue-900/30 text-blue-900 dark:text-blue-100"),
  ("monitoring", "bg-emerald-100 dark:bg-emerald-900/30 text-emerald-900 dark:text-emerald-100"),
  ("workflow", "bg-amber-100 dark:bg-amber-900/30 text-amber-900 dark:text-amber-100"),
  ("documentation", "bg-slate-100 dark:bg-slate-900/30 text-slate-900 dark:text-slate-100"),
  ("accessibility", "bg-green-100 dark:bg-green-900/30 text-green-900 dark:text-green-100"),
  ("security", "bg-red-100 dark:bg-red-900/30 text-red-900 dark:text-red-100"),
  ("nextjs", "bg-zinc-100 dark:bg-zinc-900/30 text-zinc-900 dark:text-zinc-100"),
  ("astro", "bg-orange-100 dark:bg-orange-900/30 text-orange-900 dark:text-orange-100"),
  ("tailwind", "bg-cyan-100 dark:bg-cyan-900/30 text-cyan-900 dark:text-cyan-100"),
  ("nodejs", "bg-green-100 dark:bg-green-900/30 text-green-900 dark:text-green-100"),
  ("python", "bg-yellow-100 dark:bg-yellow-900/30 text-yellow-900 dark:text-yellow-100"),
  ("graphql", "bg-pink-100 dark:bg-pink-900/30 text-pink-900 dark:text-pink-100"),
  ("redux", "bg-purple-100 dark:bg-purple-900/30 text-purple-900 dark:text-purple-100"),
  ("database", "bg-blue-100 dark:bg-blue-900/30 text-blue-900 dark:text-blue-100"),
  ("api", "bg-indigo-100 dark:bg-indigo-900/30 text-indigo-900 dark:text-indigo-100"),
  ("patterns", "bg-violet-100 dark:bg-violet-900/30 text-violet-900 dark:text-violet-100"),
  ("algorithms", "bg-emerald-100 dark:bg-emerald-900/30 text-emerald-900 dark:text-emerald-100"),
  ("optimization", "bg-amber-100 dark:bg-amber-900/30 text-amber-900 dark:text-amber-100"),
  ("debugging", "bg-rose-100 dark:bg-rose-900/30 text-rose-900 dark:text-rose-100"),
  ("html", "bg-orange-100 dark:bg-orange-900/30 text-orange-900 dark:text-orange-100"),
  ("css", "bg-blue-100 dark:bg-blue-900/30 text-blue-900 dark:text-blue-100"),
  ("javascript", "bg-yellow-100 dark:bg-yellow-900/30 text-yellow-900 dark:text-yellow-100"),
  ("webassembly", "bg-purple-100 dark:bg-purple-900/30 text-purple-900 dark:text-purple-100")]

def defaultColor : String :=
  "bg-gray-100 dark:bg-gray-900/30 text-gray-900 dark:text-gray-100"

/-- The own property names of `Object.prototype`. A plain object literal
such as `tagColors` inherits these through its prototype chain, so
`tagColors[key]` for any of them yields a non-`undefined` value (a function,
or `Object.prototype` itself for the `__proto__` accessor) rather than
`undefined`. -/
def objectPrototypeKeys : List String :=
  ["constructor", "hasOwnProperty", "isPrototypeOf", "propertyIsEnumerable",
   "toLocaleString", "toString", "valueOf", "__defineGetter__",
   "__defineSetter__", "__lookupGetter__", "__lookupSetter__", "__proto__"]

/-- The possible runtime results of `tagColors[tag] ?? defaultColor`:
either a CSS class string, or a non-string member inherited from
`Object.prototype` (which is not `null`/`undefined`, so `??` passes it
through). -/
inductive TagColor where
  | color (s : String)
  | inherited (name : String)
deriving DecidableEq

/-- `getTagColor` from `src/lib/tags.ts`: JavaScript property access on the
`tagColors` object literal (own properties first, then the `Object.prototype`
chain), with `?? defaultColor` applying only when the access yields
`undefined`. The `as TagName` cast is a compile-time assertion with no
runtime effect. -/
def getTagColor (tag : String) : TagColor :=
  match tagColors.lookup tag with
  | some c => TagColor.color c
  | none =>
    if tag ∈ objectPrototypeKeys then TagColor.inherited tag
    else TagColor.color defaultColor

/-! ## Claims about `getTagColor` -/

/-- C10 counterexample: `"toString"` is not a key of `tagColors`, yet
`getTagColor "toString"` does not return the gray default: the property
access finds `Object.prototype.toString` (a function), which `??` passes
through. -/
theorem getTagColor_toString_not_default :
    tagColors.lookup "toString" = none ∧
    getTagColor "toString" ≠ TagColor.color defaultColor := by
  exact ⟨by decide, by decide⟩

/-- C10 (amended): `getTagColor` is total; for every key of the `tagColors`
map it returns that key's color class string, and for every other string it
returns the fixed gray default — except for the property names inherited
from `Object.prototype` (such as `"toString"`), for which it returns the
inherited member instead of the default. -/
theorem getTagColor_spec (tag : String) :
    (∀ c, tagColors.lookup tag = some c → getTagColor tag = TagColor.color c) ∧
    (tagColors.lookup tag = none → tag ∉ objectPrototypeKeys →
      getTagColor tag = TagColor.color defaultColor) ∧
    (tagColors.lookup tag = none → tag ∈ objectPrototypeKeys →
      getTagColor tag = TagColor.inherited tag) := by
  refine ⟨fun c hc => ?_, fun hn hm => ?_, fun hn hm => ?_⟩
  · simp [getTagColor, hc]
  · simp [getTagColor, hn, hm]
  · simp [getTagColor, hn, hm]

/-- Witness for C10's amended theorem at concrete inputs: a mapped tag and
an unmapped, non-inherited tag. -/
theorem getTagColor_spec_witness :
    getTagColor "devops" =
      TagColor.color "bg-emerald-100 dark:bg-emerald-900/30 text-emerald-900 dark:text-emerald-100" ∧
    getTagColor "not-a-real-tag" = TagColor.color defaultColor := by
  exact ⟨(getTagColor_spec "devops").1 _ (by decide),
    (getTagColor_spec "not-a-real-tag").2.1 (by decide) (by decide)⟩

/-! ## `src/pages/rss.xml.ts` and the paginated articles index

An article is modelled by the front-matter fields these two routes read;
`date` is the timestamp `date.valueOf()` in milliseconds (`new
Date(d).valueOf()` of a `Date` is the same value). `Array.prototype.sort`
is required to be stable since ES2019 and the comparator
`(a, b) => b.date - a.date` is consistent, so it is modelled by a stable
merge sort with the ordering `b.date ≤ a.date` (the comparator being
non-positive). -/

structure Article where
  id : String
  collection : String
  title : String
  description : String
  date : Int
  draft : Bool
deriving DecidableEq

/-- `SITE` from `src/consts.ts` (the module the routes import as
`@/consts`). -/
def SITE_TITLE : String := "Benjamin Destrempes"

def SITE_DESCRIPTION : String :=
  "Benjamin Destrempes is a software engineer and entrepreneur."

def SITE_SITEURL : String := "https://astro-erudite.vercel.app"

def POSTS_PER_PAGE : Nat := 3

/-- One `items` entry of the generated feed. -/
structure RssItem where
  title : String
  description : String
  pubDate : Int
  link : String
deriving DecidableEq

/-- The configuration handed to the `rss()` serializer: the feed is a pure
rendering of exactly this data. -/
structure RssFeed where
  title : String
  description : String
  site : String
  items : List RssItem
deriving DecidableEq

inductive RssResponse where
  | feed (f : RssFeed)
  | serverError (body : String) (status : Nat)
deriving DecidableEq

/-- The environment of the `GET` handler: the result of awaiting
`getCollection('articles')` (which can reject) and `context.site` (which
can be undefined). -/
structure RssEnv where
  collectionResult : Except String (List Article)
  site : Option String

/-- `items.map(...)` of the RSS route. -/
def rssItemOf (a : Article) : RssItem :=
  { title := a.title, description := a.description, pubDate := a.date,
    link := "/" ++ a.collection ++ "/" ++ a.id ++ "/" }

/-- The `items` variable of the RSS route: non-draft articles, sorted by
`(a, b) => new Date(b.data.date).valueOf() - new Date(a.data.date).valueOf()`
(descending date). -/
def rssSortedArticles (posts : List Article) : List Article :=
  (posts.filter fun p => !p.draft).mergeSort (fun a b => decide (b.date ≤ a.date))

/-- The `GET` handler of `src/pages/rss.xml.ts`. The second component
collects the `console.error` output: empty on success, one entry from the
`catch` branch on failure. -/
def rssGET (env : RssEnv) : RssResponse × List String :=
  match env.collectionResult with
  | Except.error e =>
      (RssResponse.serverError "Error generating RSS feed" 500,
       ["Error generating RSS feed: " ++ e])
  | Except.ok posts =>
      let items := rssSortedArticles posts
      (RssResponse.feed
        { title := SITE_TITLE
          description := SITE_DESCRIPTION
          site := env.site.getD SITE_SITEURL
          items := items.map rssItemOf }, [])

/-- `getStaticPaths` of the paginated articles index
(`pages/articles/[...page].astro`): `getCollection('articles',
({ data }) => !data.draft)` sorted by descending `date.valueOf()`. -/
def getStaticPathsSorted (allPosts : List Article) : List Article :=
  (allPosts.filter fun p => !p.draft).mergeSort (fun a b => decide (b.date ≤ a.date))

/-- Astro's `paginate(data, { pageSize })`: consecutive chunks of
`pageSize` elements (Astro requires a positive page size; the zero case is
unreachable and returns no pages). -/
def paginateBy : Nat → List Article → List (List Article)
  | _, [] => []
  | 0, _ :: _ => []
  | n + 1, x :: xs => ((x :: xs).take (n + 1)) :: paginateBy (n + 1) ((x :: xs).drop (n + 1))
termination_by n l => l.length
decreasing_by
  simp [List.length_drop]
  omega

/-- The pages of the articles index. -/
def articlesIndexPages (allPosts : List Article) : List (List Article) :=
  paginateBy POSTS_PER_PAGE (getStaticPathsSorted allPosts)

theorem paginateBy_flatten (n : Nat) (l : List Article) :
    (paginateBy (n + 1) l).flatten = l := by
  cases l with
  | nil => simp [paginateBy]
  | cons x xs =>
    rw [paginateBy, List.flatten_cons, paginateBy_flatten n ((x :: xs).drop (n + 1)),
      List.take_append_drop]
termination_by l.length
decreasing_by
  simp [List.length_drop]
  omega

/-! ## Claims about the RSS route and the articles index -/

/-- C4: the RSS feed's item list and the paginated articles index both
contain exactly the non-draft articles (a permutation of the draft-filtered
input), ordered by date with the newest first; the two routes compute the
same ordered list, and the index pages concatenate back to it. -/
theorem rss_index_non_draft_newest_first (posts : List Article) :
    (rssSortedArticles posts).Perm (posts.filter fun p => !p.draft) ∧
    (rssSortedArticles posts).Pairwise (fun a b => b.date ≤ a.date) ∧
    getStaticPathsSorted posts = rssSortedArticles posts ∧
    (articlesIndexPages posts).flatten = getStaticPathsSorted posts := by
  refine ⟨List.mergeSort_perm _ _, ?_, rfl, ?_⟩
  · have h := @List.sorted_mergeSort Article
      (fun a b : Article => decide (b.date ≤ a.date))
      (fun a b c hab hbc => by
        simp only [decide_eq_true_eq] at *
        exact le_trans hbc hab)
      (fun a b => by
        simp only [Bool.or_eq_true, decide_eq_true_eq]
        exact le_total b.date a.date)
      (posts.filter fun p => !p.draft)
    exact h.imp (fun hab => by simpa using hab)
  · exact paginateBy_flatten 2 (getStaticPathsSorted posts)

/-- C9: whenever the work inside the `try` block of the RSS `GET` handler
fails, the handler logs the error via `console.error` and returns the HTTP
500 response `'Error generating RSS feed'` instead of throwing. -/
theorem rssGET_error_500 (env : RssEnv) (e : String)
    (h : env.collectionResult = Except.error e) :
    rssGET env = (RssResponse.serverError "Error generating RSS feed" 500,
      ["Error generating RSS feed: " ++ e]) := by
  simp [rssGET, h]

/-- Witness for C9 at a concrete failing environment. -/
theorem rssGET_error_500_witness :
    rssGET ⟨Except.error "boom", none⟩ =
      (RssResponse.serverError "Error generating RSS feed" 500,
       ["Error generating RSS feed: " ++ "boom"]) :=
  rssGET_error_500 ⟨Except.error "boom", none⟩ "boom" rfl

/-! ## `src/components/custom/Excalidraw.astro`: `processSvgContainer`

The client-side script keeps two pieces of page-view state per container:
membership in the module-level `processedContainers` set (cleared on
`astro:before-swap`) and the container's `innerHTML`. A processing run also
performs at most one `fetch` of the SVG asset; `fetchCount` counts the
fetches issued so far so that re-fetching is observable. The network and
the `modifySvg` DOM transformation (a `DOMParser` round-trip, opaque at
this level) form the environment. -/

structure ContainerState where
  processed : Bool
  dom : String
  fetchCount : Nat
deriving DecidableEq

structure SvgEnv where
  /-- `container.dataset.svgUrl`: absent attribute gives `undefined`. -/
  svgUrl : Option String
  /-- The outcome of `await fetch(svgUrl)` followed by `response.text()`:
  the SVG text on success, or a thrown error (network failure or a
  non-`ok` status). -/
  fetchResult : Except String String
  /-- The `modifySvg` transformation applied to the fetched text. -/
  modifySvg : String → String

/-- The inline placeholder injected by the `catch` branch. -/
def errorPlaceholderSvg : String :=
  "<svg xmlns=\"http://www.w3.org/2000/svg\" viewBox=\"0 0 100 100\"><text x=\"10\" y=\"50\" fill=\"red\">Error loading SVG</text></svg>"

/-- `processSvgContainer`: return immediately when the container is already
in the visited set; return when it has no `data-svg-url`; otherwise fetch
(counted), and on success inject the modified SVG and mark the container
visited, on failure inject the error placeholder (and do not mark it, so a
later page-load event retries). -/
def processSvgContainer (env : SvgEnv) (st : ContainerState) : ContainerState :=
  if st.processed then st
  else
    match env.svgUrl with
    | none => st
    | some _ =>
      match env.fetchResult with
      | Except.ok svgText =>
          { st with dom := env.modifySvg svgText
                    fetchCount := st.fetchCount + 1
                    processed := true }
      | Except.error _ =>
          { st with dom := errorPlaceholderSvg
                    fetchCount := st.fetchCount + 1 }

/-! ## Claim about the SVG post-processor -/

/-- C5: per-container idempotence of successful diagram processing: when
the container has an asset URL and the fetch succeeds, running
`processSvgContainer` a second time on the result of a first run changes
nothing — in particular the second run issues no further fetch and leaves
the injected DOM content unchanged (no duplication). -/
theorem processSvgContainer_idempotent (env : SvgEnv) (st : ContainerState)
    (hurl : env.svgUrl.isSome = true) (hok : env.fetchResult.isOk = true) :
    processSvgContainer env (processSvgContainer env st) = processSvgContainer env st ∧
    (processSvgContainer env (processSvgContainer env st)).fetchCount
      = (processSvgContainer env st).fetchCount ∧
    (processSvgContainer env (processSvgContainer env st)).dom
      = (processSvgContainer env st).dom := by
  obtain ⟨url, hu⟩ := Option.isSome_iff_exists.mp hurl
  have hmarked : (processSvgContainer env st).processed = true := by
    by_cases hp : st.processed
    · simp [processSvgContainer, hp]
    · cases hr : env.fetchResult with
      | ok t => simp [processSvgContainer, hp, hu, hr]
      | error e => rw [hr] at hok; simp [Except.isOk, Except.toBool] at hok
  have hguard : ∀ s : ContainerState, s.processed = true →
      processSvgContainer env s = s := fun s hs => by
    simp [processSvgContainer, hs]
  have hsecond := hguard _ hmarked
  exact ⟨hsecond, by rw [hsecond], by rw [hsecond]⟩

/-- Witness for C5 at a concrete environment and container: a fresh
container with a URL whose fetch yields a small SVG. -/
theorem processSvgContainer_idempotent_witness :
    (processSvgContainer
        ⟨some "/chart.svg", Except.ok "<svg></svg>", fun s => s⟩
        (processSvgContainer
          ⟨some "/chart.svg", Except.ok "<svg></svg>", fun s => s⟩
          ⟨false, "", 0⟩))
      = processSvgContainer
          ⟨some "/chart.svg", Except.ok "<svg></svg>", fun s => s⟩
          ⟨false, "", 0⟩ :=
  (processSvgContainer_idempotent
    ⟨some "/chart.svg", Except.ok "<svg></svg>", fun s => s⟩
    ⟨false, "", 0⟩ (by decide) (by decide)).1

/-! ## `TableOfContents.astro`: `buildToc`

The component's `Heading` interface (`depth`, `slug`, `text`,
`subheadings`) is the nested inductive `Toc`. The source builds the forest
imperatively: each incoming heading is cloned with empty `subheadings`
(`{ ...h, subheadings: [] }`), the stack is popped while its top has depth
`≥` the incoming depth, the clone is pushed into `toc` (stack empty) or
into the stack top's `subheadings`, and then pushed on the stack; nodes
already placed in the tree keep growing through the stack reference.

The functional mirror delays that placement: a stack `Frame` carries the
clone's fields plus the children accumulated so far (`kids`), and a node is
materialised (`closeFrame`) exactly when its frame leaves the stack — at
which point its `kids` are final — and delivered to where the imperative
code attached it when it was pushed: the `kids` of the frame below it, or
the root list `toc` when there is no frame below. Since the `while` loop
pops a prefix of the stack, one step pops `takeWhile`, collapses the popped
segment top-to-bottom into a single finished node (`closeSeg`), and
delivers it. -/

inductive Toc where
  | node (depth : Nat) (slug : String) (text : String) (subheadings : List Toc)

def Toc.depth : Toc → Nat
  | .node d _ _ _ => d

def Toc.slug : Toc → String
  | .node _ s _ _ => s

def Toc.text : Toc → String
  | .node _ _ t _ => t

structure Frame where
  depth : Nat
  slug : String
  text : String
  kids : List Toc

def closeFrame (f : Frame) : Toc := Toc.node f.depth f.slug f.text f.kids

/-- Collapse a popped stack segment, listed top-of-stack first: each popped
frame's finished node is appended to the `kids` of the frame below it, and
the resulting single node of the segment's bottom frame is returned. -/
def closeSeg : Frame → List Frame → Toc
  | f, [] => closeFrame f
  | f, g :: gs => closeSeg { g with kids := g.kids ++ [closeFrame f] } gs

/-- One iteration of the `headings.forEach` loop on the state
`(toc, stack)` (stack listed top first): pop while the top's depth is `≥`
the incoming depth, deliver the popped segment's node to the new top's
`kids` (or to `toc` when the stack emptied), and push the clone
`{ ...h, subheadings: [] }` as a fresh frame. -/
def stepToc (st : List Toc × List Frame) (h : Toc) : List Toc × List Frame :=
  match st.2.takeWhile (fun f => decide (h.depth ≤ f.depth)),
        st.2.dropWhile (fun f => decide (h.depth ≤ f.depth)) with
  | [], kept => (st.1, ⟨h.depth, h.slug, h.text, []⟩ :: kept)
  | p :: ps, [] =>
      (st.1 ++ [closeSeg p ps], [⟨h.depth, h.slug, h.text, []⟩])
  | p :: ps, g :: gs =>
      (st.1, ⟨h.depth, h.slug, h.text, []⟩
        :: { g with kids := g.kids ++ [closeSeg p ps] } :: gs)

/-- After the loop, every frame still on the stack is delivered the same
way (top collapses into the frames below, the bottom frame's node was a
root). -/
def flushStack (toc : List Toc) : List Frame → List Toc
  | [] => toc
  | f :: rest => toc ++ [closeSeg f rest]

/-- `buildToc` from `TableOfContents.astro`. -/
def buildToc (headings : List Toc) : List Toc :=
  let st := headings.foldl stepToc ([], [])
  flushStack st.1 st.2

/-- Modelled from the spec: the declarative description of the forest —
"every node's children have strictly greater depth than the node itself and
appear contiguously after it and before the next sibling", equivalently
each heading is attached to the nearest preceding heading of strictly
smaller depth. A heading's subtree spans exactly the run of following
headings of strictly greater depth; the next heading of depth `≤` its own
starts its next sibling. Used as the specification side of the refinement
proof for the stack machine above. -/
def buildTocSpec : List Toc → List Toc
  | [] => []
  | h :: rest =>
    Toc.node h.depth h.slug h.text
        (buildTocSpec (rest.takeWhile fun x => decide (h.depth < x.depth)))
      :: buildTocSpec (rest.dropWhile fun x => decide (h.depth < x.depth))
termination_by hs => hs.length
decreasing_by
  · exact Nat.lt_succ_of_le (List.takeWhile_sublist _).length_le
  · exact Nat.lt_succ_of_le (List.dropWhile_sublist _).length_le

mutual
/-- The depth invariant, as an executable predicate: every node's
subheadings all have depth strictly greater than the node's own depth,
recursively. -/
def wfb : Toc → Bool
  | Toc.node d _ _ kids => wfbList d kids
def wfbList (d : Nat) : List Toc → Bool
  | [] => true
  | k :: ks => (decide (d < k.depth) && wfb k) && wfbList d ks
end

/-! ### Auxiliary list lemmas -/

theorem takeWhile_append_break {α} (p : α → Bool) (f : α) (S gs : List α)
    (hf : p f = false) :
    (S ++ f :: gs).takeWhile p = S.takeWhile p := by
  induction S with
  | nil => simp [List.takeWhile_cons, hf]
  | cons a S ih =>
    by_cases ha : p a <;> simp [List.takeWhile_cons, ha, ih]

theorem dropWhile_append_break {α} (p : α → Bool) (f : α) (S gs : List α)
    (hf : p f = false) :
    (S ++ f :: gs).dropWhile p = S.dropWhile p ++ f :: gs := by
  induction S with
  | nil => simp [List.dropWhile_cons, hf]
  | cons a S ih =>
    by_cases ha : p a <;> simp [List.dropWhile_cons, ha, ih]

theorem dropWhile_head_false {α} (p : α → Bool) :
    ∀ (l : List α) s t, l.dropWhile p = s :: t → p s = false := by
  intro l s t h
  induction l with
  | nil => simp at h
  | cons a l ih =>
    by_cases ha : p a
    · rw [List.dropWhile_cons_of_pos ha] at h
      exact ih h
    · rw [List.dropWhile_cons_of_neg ha] at h
      cases h
      simpa using ha

/-! ### Properties of the delivery helpers -/

theorem closeSeg_append (S : List Frame) (a f : Frame) (gs : List Frame) :
    closeSeg a (S ++ f :: gs)
      = closeSeg { f with kids := f.kids ++ [closeSeg a S] } gs := by
  induction S generalizing a with
  | nil => rfl
  | cons b S ih =>
    show closeSeg { b with kids := b.kids ++ [closeFrame a] } (S ++ f :: gs) = _
    rw [ih]
    rfl

theorem flushStack_toc (toc : List Toc) (S : List Frame) :
    flushStack toc S = toc ++ flushStack [] S := by
  cases S <;> simp [flushStack]

theorem flushStack_append_seg (toc : List Toc) (S : List Frame) (f : Frame)
    (gs : List Frame) :
    flushStack toc (S ++ f :: gs)
      = flushStack toc ({ f with kids := f.kids ++ flushStack [] S } :: gs) := by
  cases S with
  | nil => simp [flushStack]
  | cons a S => simp [flushStack, closeSeg_append]

/-! ### Properties of the machine run -/

/-- The machine only ever appends to the root list. -/
theorem stepToc_toc (toc T : List Toc) (S : List Frame) (x : Toc) :
    stepToc (toc ++ T, S) x
      = (toc ++ (stepToc (T, S) x).1, (stepToc (T, S) x).2) := by
  simp only [stepToc]
  cases hp : S.takeWhile (fun f => decide (x.depth ≤ f.depth)) with
  | nil => simp
  | cons p ps =>
    cases hk : S.dropWhile (fun f => decide (x.depth ≤ f.depth)) with
    | nil => simp [List.append_assoc]
    | cons g gs => simp

theorem foldl_stepToc_toc (l : List Toc) (toc T : List Toc) (S : List Frame) :
    List.foldl stepToc (toc ++ T, S) l
      = (toc ++ (List.foldl stepToc (T, S) l).1,
         (List.foldl stepToc (T, S) l).2) := by
  induction l generalizing T S with
  | nil => simp
  | cons x xs ih =>
    rw [List.foldl_cons, List.foldl_cons, stepToc_toc]
    rcases hts : stepToc (T, S) x with ⟨Tn, Sn⟩
    exact ih Tn Sn

/-- Any property of the depths of the incoming headings and of the starting
stack frames holds for all frames of the final stack: a step only keeps
frames (possibly with more `kids`, same depth) and pushes the incoming
heading's frame. -/
theorem foldl_stepToc_stack_depths (P : Nat → Prop) :
    ∀ (l : List Toc) (st : List Toc × List Frame),
      (∀ x ∈ l, P x.depth) → (∀ fr ∈ st.2, P fr.depth) →
      ∀ fr ∈ (List.foldl stepToc st l).2, P fr.depth := by
  intro l
  induction l with
  | nil => intro st _ hs fr hfr; simpa using hs fr (by simpa using hfr)
  | cons x xs ih =>
    intro st hl hs
    rw [List.foldl_cons]
    refine ih (stepToc st x) (fun y hy => hl y (List.mem_cons_of_mem _ hy)) ?_
    intro fr hfr
    have hx : P x.depth := hl x (List.mem_cons_self _ _)
    revert hfr
    simp only [stepToc]
    cases hp : st.2.takeWhile (fun f => decide (x.depth ≤ f.depth)) with
    | nil =>
      intro hfr
      rcases List.mem_cons.mp hfr with h1 | h2
      · subst h1; exact hx
      · exact hs fr ((List.dropWhile_sublist _).subset h2)
    | cons p ps =>
      cases hk : st.2.dropWhile (fun f => decide (x.depth ≤ f.depth)) with
      | nil =>
        intro hfr
        rcases List.mem_cons.mp hfr with h1 | h2
        · subst h1; exact hx
        · simp at h2
      | cons g gs =>
        intro hfr
        have hgsub : ∀ y ∈ g :: gs, y ∈ st.2 := by
          intro y hy
          exact (List.dropWhile_sublist _).subset (hk ▸ hy)
        rcases List.mem_cons.mp hfr with h1 | h2
        · subst h1; exact hx
        · rcases List.mem_cons.mp h2 with h3 | h4
          · subst h3
            exact hs g (hgsub g (List.mem_cons_self _ _))
          · exact hs fr (hgsub fr (List.mem_cons_of_mem _ h4))

/-- Framing, one step: an incoming heading strictly deeper than a frame `f`
never pops `f` or anything below it, so the step acts on the segment above
`f` exactly as it would on that segment alone, with roots produced by the
segment run accumulating in `f`'s `kids` instead of the root list. -/
theorem stepToc_frame (f : Frame) (x : Toc) (hfx : f.depth < x.depth)
    (T : List Toc) (S : List Frame) (toc : List Toc) (gs : List Frame) :
    stepToc (toc, S ++ { f with kids := f.kids ++ T } :: gs) x
      = (toc, (stepToc (T, S) x).2
          ++ { f with kids := f.kids ++ (stepToc (T, S) x).1 } :: gs) := by
  have hpf : (fun fr => decide (x.depth ≤ fr.depth))
      ({ f with kids := f.kids ++ T } : Frame) = false := by
    simpa using hfx
  simp only [stepToc]
  rw [takeWhile_append_break (fun fr => decide (x.depth ≤ fr.depth))
      { f with kids := f.kids ++ T } S gs hpf,
    dropWhile_append_break (fun fr => decide (x.depth ≤ fr.depth))
      { f with kids := f.kids ++ T } S gs hpf]
  cases hp : S.takeWhile (fun fr => decide (x.depth ≤ fr.depth)) with
  | nil => simp
  | cons p ps =>
    cases hk : S.dropWhile (fun fr => decide (x.depth ≤ fr.depth)) with
    | nil => simp [List.append_assoc]
    | cons g gs' => simp

/-- Framing for a whole run of headings that are all strictly deeper than
`f`. -/
theorem foldl_stepToc_frame (l : List Toc) (f : Frame)
    (hl : ∀ x ∈ l, f.depth < x.depth) :
    ∀ (T : List Toc) (S : List Frame) (toc : List Toc) (gs : List Frame),
      List.foldl stepToc (toc, S ++ { f with kids := f.kids ++ T } :: gs) l
        = (toc, (List.foldl stepToc (T, S) l).2
            ++ { f with kids := f.kids ++ (List.foldl stepToc (T, S) l).1 }
            :: gs) := by
  induction l with
  | nil => intro T S toc gs; simp
  | cons x xs ih =>
    intro T S toc gs
    rw [List.foldl_cons, List.foldl_cons,
      stepToc_frame f x (hl x (List.mem_cons_self _ _))]
    rcases hts : stepToc (T, S) x with ⟨Tn, Sn⟩
    exact ih (fun y hy => hl y (List.mem_cons_of_mem _ hy)) Tn Sn toc gs

/-- A heading no deeper than every frame on the stack pops the whole
stack: the stack's bottom frame closes — collecting the collapsed segment
above it — and its node is delivered to the root list. -/
theorem stepToc_pop_all (st : List Toc × List Frame) (x : Toc) (f : Frame)
    (S : List Frame) (hstack : st.2 = S ++ [f])
    (hall : ∀ fr ∈ st.2, decide (x.depth ≤ fr.depth) = true) :
    stepToc st x
      = (st.1 ++ [Toc.node f.depth f.slug f.text (f.kids ++ flushStack [] S)],
         [⟨x.depth, x.slug, x.text, []⟩]) := by
  have htake : st.2.takeWhile (fun fr => decide (x.depth ≤ fr.depth)) = st.2 :=
    List.takeWhile_eq_self_iff.mpr (fun fr hfr => by
      simpa using hall fr hfr)
  have hdrop : st.2.dropWhile (fun fr => decide (x.depth ≤ fr.depth)) = [] :=
    List.dropWhile_eq_nil_iff.mpr (fun fr hfr => by
      simpa using hall fr hfr)
  simp only [stepToc]
  rw [htake, hdrop, hstack]
  cases S with
  | nil => simp [closeSeg, closeFrame, flushStack]
  | cons a S' =>
    simp [List.cons_append, closeSeg_append, closeSeg, closeFrame, flushStack]

/-- Refinement: the imperative stack machine `buildToc` computes exactly
the declarative forest `buildTocSpec`. -/
theorem buildToc_eq_spec : ∀ hs : List Toc, buildToc hs = buildTocSpec hs
  | [] => by simp [buildToc, buildTocSpec, flushStack]
  | h :: rest => by
    have hkids : ∀ x ∈ rest.takeWhile (fun x => decide (h.depth < x.depth)),
        Toc.depth h < Toc.depth x := fun x hx => by
      simpa using List.mem_takeWhile_imp hx
    have h0 : List.foldl stepToc ([], []) (h :: rest)
        = List.foldl stepToc ([], [⟨h.depth, h.slug, h.text, []⟩]) rest := rfl
    have hsplit : rest = rest.takeWhile (fun x => decide (h.depth < x.depth))
        ++ rest.dropWhile (fun x => decide (h.depth < x.depth)) :=
      (List.takeWhile_append_dropWhile _ _).symm
    rcases hTS : List.foldl stepToc ([], [])
        (rest.takeWhile (fun x => decide (h.depth < x.depth))) with ⟨T0, S0⟩
    have hframe := foldl_stepToc_frame
      (rest.takeWhile (fun x => decide (h.depth < x.depth)))
      ⟨h.depth, h.slug, h.text, []⟩ hkids [] [] [] []
    rw [hTS] at hframe
    simp only [List.nil_append, List.append_nil] at hframe
    have hkidsBuild :
        buildToc (rest.takeWhile (fun x => decide (h.depth < x.depth)))
          = T0 ++ flushStack [] S0 := by
      simp only [buildToc]
      rw [hTS]
      exact flushStack_toc T0 S0
    rcases hsibs : rest.dropWhile (fun x => decide (h.depth < x.depth))
      with _ | ⟨s, sibs'⟩
    · -- no sibling: the whole input is `h` followed by its descendants
      have hrest : rest = rest.takeWhile (fun x => decide (h.depth < x.depth)) := by
        conv_lhs => rw [hsplit]
        rw [hsibs, List.append_nil]
      rw [buildTocSpec, hsibs,
        ← buildToc_eq_spec (rest.takeWhile (fun x => decide (h.depth < x.depth))),
        hkidsBuild]
      simp only [buildToc, h0, buildTocSpec]
      conv_lhs => rw [hrest]
      rw [hframe, flushStack_append_seg]
      simp [flushStack, closeSeg, closeFrame]
    · -- a sibling `s` of depth ≤ h.depth closes h's subtree
      have hps : (fun x => decide (h.depth < x.depth)) s = false :=
        dropWhile_head_false _ rest s sibs' hsibs
      have hsle : Toc.depth s ≤ Toc.depth h := Nat.le_of_not_lt (by simpa using hps)
      have hS0 : ∀ fr ∈ S0, h.depth < fr.depth := by
        have hd := foldl_stepToc_stack_depths (fun d => Toc.depth h < d)
          (rest.takeWhile (fun x => decide (h.depth < x.depth)))
          ([], []) hkids (by simp)
        rw [hTS] at hd
        simpa using hd
      have hall : ∀ fr ∈ S0 ++ [(⟨h.depth, h.slug, h.text, T0⟩ : Frame)],
          decide (s.depth ≤ fr.depth) = true := by
        intro fr hfr
        rcases List.mem_append.mp hfr with hm | hm
        · exact decide_eq_true (le_trans hsle (le_of_lt (hS0 fr hm)))
        · have hfr' : fr = ⟨h.depth, h.slug, h.text, T0⟩ := by simpa using hm
          subst hfr'
          exact decide_eq_true hsle
      have hpop := stepToc_pop_all ([], S0 ++ [⟨h.depth, h.slug, h.text, T0⟩]) s
        ⟨h.depth, h.slug, h.text, T0⟩ S0 rfl hall
      have hrun : List.foldl stepToc ([], []) (h :: rest)
          = List.foldl stepToc
              ([Toc.node h.depth h.slug h.text (T0 ++ flushStack [] S0)],
               [⟨s.depth, s.slug, s.text, []⟩]) sibs' := by
        rw [h0]
        conv_lhs => rw [hsplit]
        rw [List.foldl_append, hframe, hsibs, List.foldl_cons, hpop]
        rfl
      have hs0 : List.foldl stepToc ([], []) (s :: sibs')
          = List.foldl stepToc ([], [⟨s.depth, s.slug, s.text, []⟩]) sibs' := rfl
      have htoc := foldl_stepToc_toc sibs'
        [Toc.node h.depth h.slug h.text (T0 ++ flushStack [] S0)] []
        [⟨s.depth, s.slug, s.text, []⟩]
      simp only [List.append_nil] at htoc
      rw [buildTocSpec, hsibs,
        ← buildToc_eq_spec (rest.takeWhile (fun x => decide (h.depth < x.depth))),
        ← buildToc_eq_spec (s :: sibs'), hkidsBuild]
      simp only [buildToc, hs0]
      rw [hrun, htoc, flushStack_toc,
        flushStack_toc (List.foldl stepToc ([], [⟨s.depth, s.slug, s.text, []⟩]) sibs').1]
      simp [List.append_assoc]
termination_by hs => hs.length
decreasing_by
  · exact Nat.lt_succ_of_le (List.takeWhile_sublist _).length_le
  · exact Nat.lt_succ_of_le (List.takeWhile_sublist _).length_le
  · rw [← hsibs]
    exact Nat.lt_succ_of_le (List.dropWhile_sublist _).length_le

/-! ### Well-formedness of the produced forest -/

theorem wfbList_iff (d : Nat) (l : List Toc) :
    wfbList d l = true ↔ ∀ k ∈ l, d < k.depth ∧ wfb k = true := by
  induction l with
  | nil => simp [wfbList]
  | cons k ks ih =>
    simp only [wfbList, Bool.and_eq_true, decide_eq_true_eq, ih,
      List.mem_cons, forall_eq_or_imp]

theorem mem_buildTocSpec_depth :
    ∀ (l : List Toc) (t : Toc), t ∈ buildTocSpec l →
      ∃ x ∈ l, Toc.depth t = Toc.depth x
  | [] => by
    intro t ht
    simp [buildTocSpec] at ht
  | h :: rest => by
    intro t ht
    rw [buildTocSpec] at ht
    rcases List.mem_cons.mp ht with h1 | h2
    · exact ⟨h, List.mem_cons_self _ _, by subst h1; rfl⟩
    · rcases mem_buildTocSpec_depth
          (rest.dropWhile fun x => decide (h.depth < x.depth)) t h2
        with ⟨x, hx, hdx⟩
      exact ⟨x, List.mem_cons_of_mem _ ((List.dropWhile_sublist _).subset hx), hdx⟩
termination_by l => l.length
decreasing_by
  all_goals exact Nat.lt_succ_of_le (List.dropWhile_sublist _).length_le

theorem buildTocSpec_wfb :
    ∀ (l : List Toc) (t : Toc), t ∈ buildTocSpec l → wfb t = true
  | [] => by
    intro t ht
    simp [buildTocSpec] at ht
  | h :: rest => by
    intro t ht
    rw [buildTocSpec] at ht
    rcases List.mem_cons.mp ht with h1 | h2
    · subst h1
      show wfbList h.depth
        (buildTocSpec (rest.takeWhile fun x => decide (h.depth < x.depth))) = true
      rw [wfbList_iff]
      intro k hk
      refine ⟨?_, buildTocSpec_wfb
        (rest.takeWhile fun x => decide (h.depth < x.depth)) k hk⟩
      rcases mem_buildTocSpec_depth _ k hk with ⟨x, hx, hdx⟩
      rw [hdx]
      simpa using List.mem_takeWhile_imp hx
    · exact buildTocSpec_wfb
        (rest.dropWhile fun x => decide (h.depth < x.depth)) t h2
termination_by l => l.length
decreasing_by
  · exact Nat.lt_succ_of_le (List.takeWhile_sublist _).length_le
  · exact Nat.lt_succ_of_le (List.dropWhile_sublist _).length_le

/-! ## Claims about `buildToc` -/

/-- C3: for every heading sequence, `buildToc` returns exactly the
declarative forest (each heading is attached under the nearest preceding
heading of strictly smaller depth — equivalently, a node's subtree spans
the run of strictly deeper headings that follows it — and headings with no
such predecessor become roots), and in that forest every node's
subheadings all have depth strictly greater than the node's own. -/
theorem buildToc_forest (hs : List Toc) :
    buildToc hs = buildTocSpec hs ∧ ∀ t ∈ buildToc hs, wfb t = true :=
  ⟨buildToc_eq_spec hs, fun t ht =>
    buildTocSpec_wfb hs t (by rw [← buildToc_eq_spec hs]; exact ht)⟩

/-- Witness for C3 at a concrete heading sequence (depths 2, 3, 1), with
the depth invariant evaluated at the first produced root. -/
theorem buildToc_forest_witness :
    buildToc [Toc.node 2 "a" "A" [], Toc.node 3 "b" "B" [], Toc.node 1 "c" "C" []]
        = buildTocSpec
            [Toc.node 2 "a" "A" [], Toc.node 3 "b" "B" [], Toc.node 1 "c" "C" []] ∧
    wfb (Toc.node 2 "a" "A" [Toc.node 3 "b" "B" []]) = true :=
  ⟨(buildToc_forest
      [Toc.node 2 "a" "A" [], Toc.node 3 "b" "B" [], Toc.node 1 "c" "C" []]).1,
   (buildToc_forest
      [Toc.node 2 "a" "A" [], Toc.node 3 "b" "B" [], Toc.node 1 "c" "C" []]).2
     (Toc.node 2 "a" "A" [Toc.node 3 "b" "B" []]) (List.mem_cons_self _ _)⟩

/-- C7: a heading sequence whose first heading has depth greater than 1
(no shallower ancestor exists) still produces a well-formed forest whose
first root is that heading; `buildToc` is total, so no error is raised. -/
theorem buildToc_deep_first_root (h : Toc) (rest : List Toc)
    (hd : 1 < Toc.depth h) :
    (∃ kids tail, buildToc (h :: rest)
        = Toc.node h.depth h.slug h.text kids :: tail) ∧
    ∀ t ∈ buildToc (h :: rest), wfb t = true := by
  refine ⟨⟨buildTocSpec (rest.takeWhile fun x => decide (h.depth < x.depth)),
      buildTocSpec (rest.dropWhile fun x => decide (h.depth < x.depth)), ?_⟩, ?_⟩
  · rw [buildToc_eq_spec, buildTocSpec]
  · intro t ht
    exact buildTocSpec_wfb _ t (by rw [← buildToc_eq_spec]; exact ht)

/-- Witness for C7: a sequence starting at depth 3 with no depth-1 or
depth-2 ancestor. -/
theorem buildToc_deep_first_root_witness :
    1 < Toc.depth (Toc.node 3 "intro" "Intro" []) ∧
    ((∃ kids tail,
        buildToc [Toc.node 3 "intro" "Intro" [], Toc.node 4 "sub" "Sub" []]
          = Toc.node 3 "intro" "Intro" kids :: tail) ∧
     ∀ t ∈ buildToc [Toc.node 3 "intro" "Intro" [], Toc.node 4 "sub" "Sub" []],
        wfb t = true) :=
  ⟨by decide,
   buildToc_deep_first_root (Toc.node 3 "intro" "Intro" [])
     [Toc.node 4 "sub" "Sub" []] (by decide)⟩

end Blog
